import Mathlib

/-!
Verification of the base resource type catalog (atc/db/base_resource_type.go).

The catalog is a SQL table `base_resource_types (id, name, unique_version_history,
defaults)` with a unique constraint on `name`.  We embed it as a list of rows
together with the next surrogate id the storage engine would assign.  The three
operations of the source file are embedded as pure functions:

* `Find` runs the shared-lock select (by id when the receiver's `Id` field is
  positive, else by name) and then the scan/deserialize logic of the Go code;
* `create` runs the `INSERT ... ON CONFLICT (name) DO UPDATE SET name =
  EXCLUDED.name, unique_version_history = EXCLUDED.unique_version_history OR
  base_resource_types.unique_version_history RETURNING id,
  unique_version_history` statement;
* `FindOrCreate` composes them exactly as the Go method does.

The defaults payload is stored as raw text (`Option String`, `none` for SQL
NULL) and deserialized by an external decoder `decode : String → Except String σ`
modelling `json.Unmarshal` into `atc.Source`; the decoder is a parameter since
the serializer is an external collaborator of this component.
-/

/-- Dynamic class of a Go `error` value reaching the caller: either a
storage-layer error coming out of `QueryRow().Scan` (other than
`sql.ErrNoRows`), or a `json.Unmarshal` error from decoding the defaults
payload.  The Go code propagates the error value verbatim, so the dynamic
class is preserved. -/
inductive GoError where
  | storage (msg : String)
  | jsonUnmarshal (msg : String)
deriving DecidableEq, Repr

/-- BaseResourceType: the receiver struct, a selector for the catalog. -/
structure BaseResourceType where
  Id : Nat
  Name : String
deriving DecidableEq, Repr

/-- UsedBaseResourceType: the materialized record returned to callers.
`Defaults : Option σ` with `none` for the Go zero value (nil `atc.Source`). -/
structure UsedBaseResourceType (σ : Type) where
  ID : Nat
  Name : String
  UniqueVersionHistory : Bool
  Defaults : Option σ
deriving DecidableEq, Repr

/-- A stored row of table `base_resource_types`: the four selected columns
`id, name, unique_version_history, defaults`, with `defaults` a nullable
text column (`sql.NullString`). -/
structure Row where
  id : Nat
  name : String
  uniqueVersionHistory : Bool
  defaults : Option String
deriving DecidableEq, Repr

/-- The catalog table plus the storage engine's next surrogate id. -/
structure Catalog where
  rows : List Row
  nextId : Nat
deriving DecidableEq, Repr

/-- The WHERE clause built by `Find`: by `id` when `brt.Id > 0`, else by
`name` (id takes precedence). -/
def selects (brt : BaseResourceType) (r : Row) : Bool :=
  if 0 < brt.Id then r.id == brt.Id else r.name == brt.Name

/-- Outcome of `QueryRow().Scan` for the select: a row, `sql.ErrNoRows`,
or some other storage-layer error. -/
inductive ScanOutcome where
  | ok (r : Row)
  | errNoRows
  | err (e : GoError)
deriving DecidableEq, Repr

/-- The healthy storage engine executing the `SELECT ... FOR SHARE`:
returns the matching row or `sql.ErrNoRows`. -/
def scanSelect (cat : Catalog) (brt : BaseResourceType) : ScanOutcome :=
  match cat.rows.find? (selects brt) with
  | some r => .ok r
  | none => .errNoRows

/-- The triple `(*UsedBaseResourceType, bool, error)` returned by Go's
`Find`, which only ever takes one of three shapes:
`found u` is `(u, true, nil)`, `absent` is `(nil, false, nil)`, and
`failure e` is `(nil, false, e)`. -/
inductive FindOutcome (σ : Type) where
  | found (u : UsedBaseResourceType σ)
  | absent
  | failure (e : GoError)
deriving DecidableEq, Repr

/-- The post-scan logic of Go's `Find`: `sql.ErrNoRows` becomes the absent
result, any other scan error is returned unchanged, and on a scanned row
the defaults payload is decoded when present (a decode error is returned,
carrying the `json.Unmarshal` class). -/
def findFrom {σ : Type} (decode : String → Except String σ) (scan : ScanOutcome) :
    FindOutcome σ :=
  match scan with
  | .errNoRows => .absent
  | .err e => .failure e
  | .ok r =>
    match r.defaults with
    | none => .found ⟨r.id, r.name, r.uniqueVersionHistory, none⟩
    | some s =>
      match decode s with
      | .error e => .failure (.jsonUnmarshal e)
      | .ok v => .found ⟨r.id, r.name, r.uniqueVersionHistory, some v⟩

/-- Go's `Find` against the healthy storage engine. -/
def Find {σ : Type} (decode : String → Except String σ) (brt : BaseResourceType)
    (cat : Catalog) : FindOutcome σ :=
  findFrom decode (scanSelect cat brt)

/-- The atomic `INSERT ... ON CONFLICT (name) DO UPDATE SET name = EXCLUDED.name,
unique_version_history = EXCLUDED.unique_version_history OR
base_resource_types.unique_version_history RETURNING id, unique_version_history`
statement: one atomic step that returns the post-merge id and flag together
with the new table state.  A fresh row gets the engine's next id and a NULL
defaults column. -/
def upsert (cat : Catalog) (nm : String) (uniq : Bool) : (Nat × Bool) × Catalog :=
  match cat.rows.find? (fun r => r.name == nm) with
  | some r =>
    let r' : Row := { r with name := nm, uniqueVersionHistory := uniq || r.uniqueVersionHistory }
    ((r'.id, r'.uniqueVersionHistory),
      { cat with rows := cat.rows.map (fun q => if q.name == nm then r' else q) })
  | none =>
    let r : Row := { id := cat.nextId, name := nm, uniqueVersionHistory := uniq, defaults := none }
    ((r.id, r.uniqueVersionHistory), { rows := cat.rows ++ [r], nextId := cat.nextId + 1 })

/-- Go's `create`: runs the upsert and builds the returned record from the
RETURNING clause; `Defaults` is left at the type's zero value. -/
def create {σ : Type} (brt : BaseResourceType) (uniq : Bool) (cat : Catalog) :
    Except GoError (UsedBaseResourceType σ) × Catalog :=
  let res := upsert cat brt.Name uniq
  (.ok { ID := res.1.1, Name := brt.Name, UniqueVersionHistory := res.1.2, Defaults := none },
    res.2)

/-- Go's `FindOrCreate` written over an arbitrary scan outcome of the initial
read: on a read error return it with no write; on a found record whose flag
already equals the request return it unchanged; otherwise run `create`. -/
def findOrCreateFrom {σ : Type} (decode : String → Except String σ)
    (brt : BaseResourceType) (uniq : Bool) (cat : Catalog) (scan : ScanOutcome) :
    Except GoError (UsedBaseResourceType σ) × Catalog :=
  match findFrom decode scan with
  | .failure e => (.error e, cat)
  | .found u => if u.UniqueVersionHistory = uniq then (.ok u, cat) else create brt uniq cat
  | .absent => create brt uniq cat

/-- Go's `FindOrCreate` against the healthy storage engine. -/
def FindOrCreate {σ : Type} (decode : String → Except String σ)
    (brt : BaseResourceType) (uniq : Bool) (cat : Catalog) :
    Except GoError (UsedBaseResourceType σ) × Catalog :=
  findOrCreateFrom decode brt uniq cat (scanSelect cat brt)

/-- The row currently stored under a name (the unique-constraint key). -/
def lookupName (cat : Catalog) (nm : String) : Option Row :=
  cat.rows.find? (fun r => r.name == nm)

/-- The stored capability flag for a name, when the row exists. -/
def flagOf (cat : Catalog) (nm : String) : Option Bool :=
  (lookupName cat nm).map Row.uniqueVersionHistory

/-- All rows stored under a name (the unique constraint keeps this at most
one element long). -/
def nrows (cat : Catalog) (nm : String) : List Row :=
  cat.rows.filter (fun r => r.name == nm)

example :
    FindOrCreate (σ := Unit) (fun _ => .ok ()) ⟨0, "git"⟩ false ⟨[], 0⟩
      = (.ok ⟨0, "git", false, none⟩, ⟨[⟨0, "git", false, none⟩], 1⟩) := by rfl

example :
    FindOrCreate (σ := Unit) (fun _ => .ok ()) ⟨0, "git"⟩ true ⟨[⟨0, "git", false, none⟩], 1⟩
      = (.ok ⟨0, "git", true, none⟩, ⟨[⟨0, "git", true, none⟩], 1⟩) := by rfl

example :
    FindOrCreate (σ := Unit) (fun _ => .ok ()) ⟨0, "git"⟩ false ⟨[⟨0, "git", true, none⟩], 1⟩
      = (.ok ⟨0, "git", true, none⟩, ⟨[⟨0, "git", true, none⟩], 1⟩) := by rfl

example :
    Find (σ := Unit) (fun _ => .ok ()) ⟨0, "unknown"⟩ ⟨[], 0⟩ = .absent := by rfl

/-! ### Helper lemmas about the list-level table operations -/

theorem find?_eq_head_filter (l : List Row) (p : Row → Bool) :
    l.find? p = (l.filter p).head? := by
  induction l with
  | nil => rfl
  | cons a t ih =>
    by_cases h : p a = true
    · simp [List.find?_cons_of_pos _ h, List.filter_cons, h]
    · have h' : p a = false := by simpa using h
      rw [List.find?_cons_of_neg _ (by simp [h']), List.filter_cons, h']
      simpa using ih

theorem map_fixed_eq_self {l : List Row} {f : Row → Row} (h : ∀ x ∈ l, f x = x) :
    l.map f = l := by
  conv_rhs => rw [← List.map_id l]
  exact List.map_congr_left h

theorem find?_name_map {l : List Row} {nm : String} {r : Row} (r' : Row)
    (h : l.find? (fun q => q.name == nm) = some r) (h' : r'.name = nm) :
    (l.map (fun q => if q.name == nm then r' else q)).find? (fun q => q.name == nm)
      = some r' := by
  induction l with
  | nil => simp at h
  | cons a t ih =>
    by_cases ha : a.name = nm
    · have hb : (a.name == nm) = true := by simpa using ha
      simp only [List.map_cons, hb, if_true]
      exact List.find?_cons_of_pos _ (by simpa using h')
    · have hb : (a.name == nm) = false := by simpa using ha
      rw [List.find?_cons_of_neg _ (by simp [hb])] at h
      simp only [List.map_cons, hb, Bool.false_eq_true, if_false]
      rw [List.find?_cons_of_neg _ (by simp [hb])]
      exact ih h

theorem mem_name_map {l : List Row} {nm : String} {r' : Row} (h' : r'.name = nm) :
    ∀ q ∈ l.map (fun q => if q.name == nm then r' else q), q.name = nm → q = r' := by
  intro q hq hname
  rcases List.mem_map.mp hq with ⟨q₀, _, rfl⟩
  by_cases h0 : q₀.name = nm
  · simp [h0]
  · have hb : (q₀.name == nm) = false := by simpa using h0
    rw [hb] at hname ⊢
    simp only [Bool.false_eq_true, if_false] at hname
    exact absurd hname h0

theorem filter_name_map {l : List Row} {nm : String} {r' : Row} (h' : r'.name = nm) :
    (l.map (fun q => if q.name == nm then r' else q)).filter (fun q => q.name == nm)
      = (l.filter (fun q => q.name == nm)).map (fun _ => r') := by
  induction l with
  | nil => rfl
  | cons a t ih =>
    by_cases ha : a.name = nm
    · have hb : (a.name == nm) = true := by simpa using ha
      have hb' : (r'.name == nm) = true := by simpa using h'
      rw [List.map_cons, if_pos hb, List.filter_cons, if_pos hb',
        List.filter_cons, if_pos hb, List.map_cons, ih]
    · have hb : (a.name == nm) = false := by simpa using ha
      have hb' : ¬ ((a.name == nm) = true) := by simp [hb]
      rw [List.map_cons, if_neg hb', List.filter_cons, if_neg hb',
        List.filter_cons, if_neg hb', ih]

theorem lookupName_eq_head_nrows (cat : Catalog) (nm : String) :
    lookupName cat nm = (nrows cat nm).head? :=
  find?_eq_head_filter _ _

/-! ### Characterization of the embedded operations -/

theorem selects_zero (nm : String) : selects ⟨0, nm⟩ = fun r => r.name == nm := by
  funext r
  simp [selects]

theorem scanSelect_name (cat : Catalog) (nm : String) :
    scanSelect cat ⟨0, nm⟩ =
      match lookupName cat nm with
      | some r => .ok r
      | none => .errNoRows := by
  unfold scanSelect lookupName
  rw [selects_zero]

theorem upsert_merge {cat : Catalog} {nm : String} {r : Row} (uniq : Bool)
    (h : lookupName cat nm = some r) :
    upsert cat nm uniq =
      ((r.id, uniq || r.uniqueVersionHistory),
        ⟨cat.rows.map (fun q => if q.name == nm then
            ⟨r.id, nm, uniq || r.uniqueVersionHistory, r.defaults⟩ else q),
          cat.nextId⟩) := by
  unfold lookupName at h
  unfold upsert
  rw [h]

theorem upsert_insert {cat : Catalog} {nm : String} (uniq : Bool)
    (h : lookupName cat nm = none) :
    upsert cat nm uniq =
      ((cat.nextId, uniq),
        ⟨cat.rows ++ [⟨cat.nextId, nm, uniq, none⟩], cat.nextId + 1⟩) := by
  unfold lookupName at h
  unfold upsert
  rw [h]

theorem name_of_lookupName {cat : Catalog} {nm : String} {r : Row}
    (h : lookupName cat nm = some r) : r.name = nm := by
  have := List.find?_some h
  simpa using this

theorem Find_eq_cases {σ : Type} (decode : String → Except String σ)
    (brt : BaseResourceType) (cat : Catalog) :
    Find decode brt cat =
      match cat.rows.find? (selects brt) with
      | none => .absent
      | some r => findFrom decode (.ok r) := by
  unfold Find scanSelect
  rcases cat.rows.find? (selects brt) with _ | r <;> rfl

theorem findFrom_ok_none {σ : Type} (decode : String → Except String σ) {r : Row}
    (h : r.defaults = none) :
    findFrom decode (.ok r) = .found ⟨r.id, r.name, r.uniqueVersionHistory, none⟩ := by
  simp [findFrom, h]

theorem findFrom_ok_decoded {σ : Type} (decode : String → Except String σ) {r : Row}
    {s : String} {v : σ} (h : r.defaults = some s) (hdec : decode s = .ok v) :
    findFrom decode (.ok r) = .found ⟨r.id, r.name, r.uniqueVersionHistory, some v⟩ := by
  simp [findFrom, h, hdec]

theorem findFrom_ok_undecodable {σ : Type} (decode : String → Except String σ) {r : Row}
    {s : String} {e : String} (h : r.defaults = some s) (hdec : decode s = .error e) :
    findFrom decode (.ok r) = .failure (.jsonUnmarshal e) := by
  simp [findFrom, h, hdec]

theorem find_found_sel {σ : Type} {decode : String → Except String σ}
    {brt : BaseResourceType} {cat : Catalog} {u : UsedBaseResourceType σ}
    (h : Find decode brt cat = .found u) :
    ∃ r, cat.rows.find? (selects brt) = some r ∧ u.ID = r.id ∧ u.Name = r.name ∧
      u.UniqueVersionHistory = r.uniqueVersionHistory ∧
      ((r.defaults = none ∧ u.Defaults = none) ∨
        ∃ s v, r.defaults = some s ∧ decode s = .ok v ∧ u.Defaults = some v) := by
  rw [Find_eq_cases] at h
  rcases hf : cat.rows.find? (selects brt) with _ | r
  · rw [hf] at h
    exact absurd h (by simp)
  · rw [hf] at h
    have h2 : findFrom decode (.ok r) = FindOutcome.found u := h
    rcases hd : r.defaults with _ | s
    · rw [findFrom_ok_none decode hd] at h2
      injection h2 with h3
      subst h3
      exact ⟨r, rfl, rfl, rfl, rfl, Or.inl ⟨hd, rfl⟩⟩
    · rcases hdec : decode s with e | v
      · rw [findFrom_ok_undecodable decode hd hdec] at h2
        exact absurd h2 (by simp)
      · rw [findFrom_ok_decoded decode hd hdec] at h2
        injection h2 with h3
        subst h3
        exact ⟨r, rfl, rfl, rfl, rfl, Or.inr ⟨s, v, hd, hdec, rfl⟩⟩

theorem find_absent_sel {σ : Type} {decode : String → Except String σ}
    {brt : BaseResourceType} {cat : Catalog}
    (h : Find decode brt cat = .absent) :
    cat.rows.find? (selects brt) = none := by
  rw [Find_eq_cases] at h
  rcases hf : cat.rows.find? (selects brt) with _ | r
  · rfl
  · rw [hf] at h
    have h2 : findFrom decode (.ok r) = FindOutcome.absent := h
    rcases hd : r.defaults with _ | s
    · rw [findFrom_ok_none decode hd] at h2
      exact absurd h2 (by simp)
    · rcases hdec : decode s with e | v
      · rw [findFrom_ok_undecodable decode hd hdec] at h2
        exact absurd h2 (by simp)
      · rw [findFrom_ok_decoded decode hd hdec] at h2
        exact absurd h2 (by simp)

theorem lookupName_merge {cat : Catalog} {nm : String} {r : Row} (r' : Row) (k : Nat)
    (h : lookupName cat nm = some r) (h' : r'.name = nm) :
    lookupName ⟨cat.rows.map (fun q => if q.name == nm then r' else q), k⟩ nm = some r' := by
  unfold lookupName at h ⊢
  exact find?_name_map r' h h'

theorem lookupName_append_fresh {cat : Catalog} {nm : String} (i : Nat) (f : Bool)
    (d : Option String) (k : Nat) (h : lookupName cat nm = none) :
    lookupName ⟨cat.rows ++ [⟨i, nm, f, d⟩], k⟩ nm = some ⟨i, nm, f, d⟩ := by
  unfold lookupName at h ⊢
  rw [List.find?_append, h]
  simp

/-! ### Claim theorems -/

/-- C3: when the initial read finds a row whose stored flag already equals the
requested flag, FindOrCreate returns the found record unchanged and performs
no write: the catalog is untouched and the create-or-merge statement is not
executed. -/
theorem C3_fast_path_no_write {σ : Type} (decode : String → Except String σ)
    (brt : BaseResourceType) (uniq : Bool) (cat : Catalog) (u : UsedBaseResourceType σ)
    (hfind : Find decode brt cat = .found u)
    (hflag : u.UniqueVersionHistory = uniq) :
    FindOrCreate decode brt uniq cat = (.ok u, cat) := by
  unfold FindOrCreate findOrCreateFrom
  unfold Find at hfind
  rw [hfind]
  simp [hflag]

/-- C3 witness: on a one-row catalog whose flag equals the request, the fast
path returns the stored record and leaves the catalog unchanged. -/
theorem C3_fast_path_no_write_witness :
    FindOrCreate (σ := Unit) (fun _ => .ok ()) ⟨0, "git"⟩ true ⟨[⟨7, "git", true, none⟩], 8⟩
      = (.ok ⟨7, "git", true, none⟩, ⟨[⟨7, "git", true, none⟩], 8⟩) :=
  C3_fast_path_no_write (fun _ => .ok ()) ⟨0, "git"⟩ true ⟨[⟨7, "git", true, none⟩], 8⟩
    ⟨7, "git", true, none⟩ (by rfl) (by rfl)

/-- C5: a read matching no row yields the explicit absent result (the Go
triple with found = false and a nil error), not an error; a storage failure
of the scan is propagated to the caller unchanged; and the absent outcome is
exactly what drives the create branch of FindOrCreate. -/
theorem C5_absent_not_error {σ : Type} (decode : String → Except String σ)
    (brt : BaseResourceType) (uniq : Bool) (cat : Catalog) :
    ((∀ r ∈ cat.rows, selects brt r = false) → Find decode brt cat = .absent) ∧
    (∀ e, findFrom decode (.err e) = (.failure e : FindOutcome σ)) ∧
    (Find decode brt cat = .absent →
      FindOrCreate decode brt uniq cat = create brt uniq cat) := by
  refine ⟨?_, fun e => rfl, ?_⟩
  · intro hno
    have hnone : cat.rows.find? (selects brt) = none := by
      apply List.find?_eq_none.mpr
      intro x hx
      simp [hno x hx]
    rw [Find_eq_cases, hnone]
  · intro habs
    unfold FindOrCreate findOrCreateFrom
    unfold Find at habs
    rw [habs]

/-- C5 witness: on the empty catalog the read is absent with no error, an
injected storage error is propagated unchanged, and the absent result routes
FindOrCreate into create. -/
theorem C5_absent_not_error_witness :
    Find (σ := Unit) (fun _ => .ok ()) ⟨0, "unknown"⟩ ⟨[], 0⟩ = .absent ∧
    findFrom (σ := Unit) (fun _ => .ok ()) (.err (.storage "boom"))
      = .failure (.storage "boom") ∧
    FindOrCreate (σ := Unit) (fun _ => .ok ()) ⟨0, "unknown"⟩ true ⟨[], 0⟩
      = create ⟨0, "unknown"⟩ true ⟨[], 0⟩ := by
  obtain ⟨h1, h2, h3⟩ :=
    C5_absent_not_error (σ := Unit) (fun _ => .ok ()) ⟨0, "unknown"⟩ true ⟨[], 0⟩
  exact ⟨h1 (by decide), h2 (.storage "boom"), h3 (h1 (by decide))⟩

/-- C6: when the selected row's defaults payload is present but cannot be
decoded, Find reports the json error, which is distinct from the absent
outcome and from every storage-failure value. -/
theorem C6_serialization_failure_distinct {σ : Type} (decode : String → Except String σ)
    (brt : BaseResourceType) (cat : Catalog) (r : Row) (s e : String)
    (hsel : cat.rows.find? (selects brt) = some r)
    (hdef : r.defaults = some s)
    (hdec : decode s = .error e) :
    Find decode brt cat = .failure (.jsonUnmarshal e) ∧
    (∀ m, GoError.jsonUnmarshal e ≠ GoError.storage m) ∧
    (FindOutcome.failure (σ := σ) (.jsonUnmarshal e) ≠ .absent) := by
  refine ⟨?_, fun m => by simp, by simp⟩
  rw [Find_eq_cases, hsel]
  exact findFrom_ok_undecodable decode hdef hdec

/-- C6 witness: a row with an undecodable defaults payload makes Find fail
with the json error, distinct from absence and from storage errors. -/
theorem C6_serialization_failure_distinct_witness :
    Find (σ := Unit) (fun _ => .error "bad json") ⟨0, "git"⟩
        ⟨[⟨1, "git", false, some "oops"⟩], 2⟩
      = .failure (.jsonUnmarshal "bad json") ∧
    (∀ m, GoError.jsonUnmarshal "bad json" ≠ GoError.storage m) ∧
    (FindOutcome.failure (σ := Unit) (.jsonUnmarshal "bad json") ≠ .absent) :=
  C6_serialization_failure_distinct (fun _ => .error "bad json") ⟨0, "git"⟩
    ⟨[⟨1, "git", false, some "oops"⟩], 2⟩ ⟨1, "git", false, some "oops"⟩
    "oops" "bad json" (by rfl) (by rfl) (by rfl)

/-- C7: when the selector's id field holds a real (positive) value, the
lookup is performed by id and the name part of the selector is ignored. -/
theorem C7_id_takes_precedence {σ : Type} (decode : String → Except String σ)
    (i : Nat) (n₁ n₂ : String) (cat : Catalog) (hid : 0 < i) :
    Find decode ⟨i, n₁⟩ cat = Find decode ⟨i, n₂⟩ cat ∧
    (∀ r : Row, selects ⟨i, n₁⟩ r = (r.id == i)) := by
  have hsel : ∀ nm, selects ⟨i, nm⟩ = fun r => r.id == i := by
    intro nm
    funext r
    simp [selects, hid]
  constructor
  · unfold Find scanSelect
    rw [hsel n₁, hsel n₂]
  · intro r
    rw [hsel n₁]

/-- C7 witness: with id 7 set, the two name selectors are ignored and the
WHERE clause is the id comparison. -/
theorem C7_id_takes_precedence_witness :
    Find (σ := Unit) (fun _ => .ok ()) ⟨7, "git"⟩ ⟨[⟨7, "svn", true, none⟩], 8⟩
      = Find (σ := Unit) (fun _ => .ok ()) ⟨7, "other"⟩ ⟨[⟨7, "svn", true, none⟩], 8⟩ ∧
    (∀ r : Row, selects ⟨7, "git"⟩ r = (r.id == 7)) :=
  C7_id_takes_precedence (σ := Unit) (fun _ => .ok ()) 7 "git" "other"
    ⟨[⟨7, "svn", true, none⟩], 8⟩ (by decide)

/-- C10: when the initial read inside FindOrCreate produces an error, be it a
storage failure of the scan or a defaults-decode failure, FindOrCreate
returns exactly that error and attempts no write: the create-or-merge
statement is not executed and the catalog is unchanged. -/
theorem C10_read_error_no_write {σ : Type} (decode : String → Except String σ)
    (brt : BaseResourceType) (uniq : Bool) (cat : Catalog) (scan : ScanOutcome)
    (e : GoError) (h : findFrom decode scan = .failure e) :
    findOrCreateFrom decode brt uniq cat scan = (.error e, cat) := by
  unfold findOrCreateFrom
  rw [h]

/-- C10 witness: an injected storage failure of the initial read surfaces
unchanged from FindOrCreate and the catalog is untouched. -/
theorem C10_read_error_no_write_witness :
    findOrCreateFrom (σ := Unit) (fun _ => .ok ()) ⟨0, "git"⟩ true
        ⟨[⟨1, "git", false, none⟩], 2⟩ (.err (.storage "down"))
      = (.error (.storage "down"), ⟨[⟨1, "git", false, none⟩], 2⟩) :=
  C10_read_error_no_write (fun _ => .ok ()) ⟨0, "git"⟩ true
    ⟨[⟨1, "git", false, none⟩], 2⟩ (.err (.storage "down")) (.storage "down") (by rfl)

/-- C2: when the insert conflicts with an existing row of the same name, the
row's flag is updated in the same atomic statement to requestedFlag OR
existingFlag (a promotion, never a demotion), and the statement returns the
post-merge id and flag, which are exactly the values placed into the
returned UsedBaseResourceType. -/
theorem C2_conflict_merge {σ : Type} (brt : BaseResourceType) (uniq : Bool)
    (cat : Catalog) (r : Row) (h : lookupName cat brt.Name = some r) :
    create (σ := σ) brt uniq cat =
      (.ok ⟨r.id, brt.Name, uniq || r.uniqueVersionHistory, none⟩,
        ⟨cat.rows.map (fun q => if q.name == brt.Name then
            ⟨r.id, brt.Name, uniq || r.uniqueVersionHistory, r.defaults⟩ else q),
          cat.nextId⟩) ∧
    lookupName (create (σ := σ) brt uniq cat).2 brt.Name
      = some ⟨r.id, brt.Name, uniq || r.uniqueVersionHistory, r.defaults⟩ ∧
    (r.uniqueVersionHistory = true → (uniq || r.uniqueVersionHistory) = true) := by
  have hc : create (σ := σ) brt uniq cat =
      (.ok ⟨r.id, brt.Name, uniq || r.uniqueVersionHistory, none⟩,
        ⟨cat.rows.map (fun q => if q.name == brt.Name then
            ⟨r.id, brt.Name, uniq || r.uniqueVersionHistory, r.defaults⟩ else q),
          cat.nextId⟩) := by
    unfold create
    rw [upsert_merge uniq h]
  refine ⟨hc, ?_, fun ht => by simp [ht]⟩
  rw [hc]
  exact lookupName_merge _ _ h rfl

/-- C2 witness: registering true against an existing false row merges the
flag to true, returns the existing id, and stores the merged flag. -/
theorem C2_conflict_merge_witness :
    create (σ := Unit) ⟨0, "git"⟩ true ⟨[⟨3, "git", false, none⟩], 4⟩
      = (.ok ⟨3, "git", true, none⟩, ⟨[⟨3, "git", true, none⟩], 4⟩) ∧
    lookupName (create (σ := Unit) ⟨0, "git"⟩ true ⟨[⟨3, "git", false, none⟩], 4⟩).2 "git"
      = some ⟨3, "git", true, none⟩ ∧
    (false = true → (true || false) = true) :=
  C2_conflict_merge (σ := Unit) ⟨0, "git"⟩ true ⟨[⟨3, "git", false, none⟩], 4⟩
    ⟨3, "git", false, none⟩ (by rfl)

/-- C8: a create-or-merge write returns the record with the submitted name,
the post-merge id and flag, and a Defaults field left at the type's zero
value; on the merge branch the stored defaults payload of the existing row
is not re-populated (it is carried over unchanged), and only on first
creation is the row's defaults column written, as NULL. -/
theorem C8_create_defaults_frame {σ : Type} (brt : BaseResourceType) (uniq : Bool)
    (cat : Catalog) (u : UsedBaseResourceType σ) (cat' : Catalog)
    (h : create (σ := σ) brt uniq cat = (.ok u, cat')) :
    u.Name = brt.Name ∧ u.Defaults = none ∧
    (∀ r, lookupName cat brt.Name = some r →
      u.ID = r.id ∧ u.UniqueVersionHistory = (uniq || r.uniqueVersionHistory) ∧
      lookupName cat' brt.Name
        = some ⟨r.id, brt.Name, uniq || r.uniqueVersionHistory, r.defaults⟩) ∧
    (lookupName cat brt.Name = none →
      u.ID = cat.nextId ∧ u.UniqueVersionHistory = uniq ∧
      lookupName cat' brt.Name = some ⟨cat.nextId, brt.Name, uniq, none⟩) := by
  rcases hl : lookupName cat brt.Name with _ | r
  · have hc : create (σ := σ) brt uniq cat =
        (.ok ⟨cat.nextId, brt.Name, uniq, none⟩,
          ⟨cat.rows ++ [⟨cat.nextId, brt.Name, uniq, none⟩], cat.nextId + 1⟩) := by
      unfold create
      rw [upsert_insert uniq hl]
    rw [hc] at h
    injection h with h1 h2
    injection h1 with h1
    subst h1 h2
    refine ⟨rfl, rfl, fun r hr => absurd hr (by simp), fun _ => ⟨rfl, rfl, ?_⟩⟩
    exact lookupName_append_fresh _ _ _ _ hl
  · have hc : create (σ := σ) brt uniq cat =
        (.ok ⟨r.id, brt.Name, uniq || r.uniqueVersionHistory, none⟩,
          ⟨cat.rows.map (fun q => if q.name == brt.Name then
              ⟨r.id, brt.Name, uniq || r.uniqueVersionHistory, r.defaults⟩ else q),
            cat.nextId⟩) := by
      unfold create
      rw [upsert_merge uniq hl]
    rw [hc] at h
    injection h with h1 h2
    injection h1 with h1
    subst h1 h2
    refine ⟨rfl, rfl, fun r' hr' => ?_, fun hn => absurd hn (by simp)⟩
    injection hr' with hr'
    subst hr'
    exact ⟨rfl, rfl, lookupName_merge _ _ hl rfl⟩

/-- C8 witness: merging into an existing row that carries a defaults payload
returns a record with no defaults and leaves the stored payload unchanged;
the insert branch stores a NULL defaults column. -/
theorem C8_create_defaults_frame_witness :
    (⟨3, "git", true, none⟩ : UsedBaseResourceType Unit).Name = "git" ∧
    (⟨3, "git", true, none⟩ : UsedBaseResourceType Unit).Defaults = none ∧
    (∀ r, lookupName ⟨[⟨3, "git", false, some "cfg"⟩], 4⟩ "git" = some r →
      (⟨3, "git", true, none⟩ : UsedBaseResourceType Unit).ID = r.id ∧
      (⟨3, "git", true, none⟩ : UsedBaseResourceType Unit).UniqueVersionHistory
        = (true || r.uniqueVersionHistory) ∧
      lookupName ⟨[⟨3, "git", true, some "cfg"⟩], 4⟩ "git"
        = some ⟨r.id, "git", true || r.uniqueVersionHistory, r.defaults⟩) ∧
    (lookupName ⟨[⟨3, "git", false, some "cfg"⟩], 4⟩ "git" = none →
      (⟨3, "git", true, none⟩ : UsedBaseResourceType Unit).ID = 4 ∧
      (⟨3, "git", true, none⟩ : UsedBaseResourceType Unit).UniqueVersionHistory = true ∧
      lookupName ⟨[⟨3, "git", true, some "cfg"⟩], 4⟩ "git" = some ⟨4, "git", true, none⟩) := by
  have := C8_create_defaults_frame (σ := Unit) ⟨0, "git"⟩ true
    ⟨[⟨3, "git", false, some "cfg"⟩], 4⟩ ⟨3, "git", true, none⟩
    ⟨[⟨3, "git", true, some "cfg"⟩], 4⟩ (by rfl)
  exact this

/-! ### Branch characterizations of FindOrCreate and flag lemmas -/

theorem foc_found_matching {σ : Type} {decode : String → Except String σ}
    {brt : BaseResourceType} {uniq : Bool} {cat : Catalog} {u : UsedBaseResourceType σ}
    (hfind : Find decode brt cat = .found u) (hflag : u.UniqueVersionHistory = uniq) :
    FindOrCreate decode brt uniq cat = (.ok u, cat) := by
  unfold FindOrCreate findOrCreateFrom
  unfold Find at hfind
  rw [hfind]
  simp [hflag]

theorem foc_found_diff {σ : Type} {decode : String → Except String σ}
    {brt : BaseResourceType} {uniq : Bool} {cat : Catalog} {u : UsedBaseResourceType σ}
    (hfind : Find decode brt cat = .found u) (hflag : ¬ u.UniqueVersionHistory = uniq) :
    FindOrCreate decode brt uniq cat = create brt uniq cat := by
  unfold FindOrCreate findOrCreateFrom
  unfold Find at hfind
  rw [hfind]
  simp [hflag]

theorem foc_absent {σ : Type} {decode : String → Except String σ}
    {brt : BaseResourceType} (uniq : Bool) {cat : Catalog}
    (hfind : Find decode brt cat = .absent) :
    FindOrCreate decode brt uniq cat = create brt uniq cat := by
  unfold FindOrCreate findOrCreateFrom
  unfold Find at hfind
  rw [hfind]

theorem foc_failure {σ : Type} {decode : String → Except String σ}
    {brt : BaseResourceType} (uniq : Bool) {cat : Catalog} {e : GoError}
    (hfind : Find decode brt cat = .failure e) :
    FindOrCreate decode brt uniq cat = (.error e, cat) := by
  unfold FindOrCreate findOrCreateFrom
  unfold Find at hfind
  rw [hfind]

theorem find_found_name {σ : Type} {decode : String → Except String σ}
    {nm : String} {cat : Catalog} {u : UsedBaseResourceType σ}
    (h : Find decode ⟨0, nm⟩ cat = .found u) :
    ∃ r, lookupName cat nm = some r ∧ r.name = nm ∧ u.ID = r.id ∧ u.Name = r.name ∧
      u.UniqueVersionHistory = r.uniqueVersionHistory ∧
      ((r.defaults = none ∧ u.Defaults = none) ∨
        ∃ s v, r.defaults = some s ∧ decode s = .ok v ∧ u.Defaults = some v) := by
  obtain ⟨r, hr, h1, h2, h3, h4⟩ := find_found_sel h
  rw [selects_zero nm] at hr
  have hname : r.name = nm := by
    have := List.find?_some hr
    simpa using this
  exact ⟨r, hr, hname, h1, h2, h3, h4⟩

theorem find_absent_name {σ : Type} {decode : String → Except String σ}
    {nm : String} {cat : Catalog}
    (h : Find decode ⟨0, nm⟩ cat = .absent) :
    lookupName cat nm = none := by
  have := find_absent_sel h
  rw [selects_zero nm] at this
  exact this

theorem flagOf_create_true {σ : Type} (nm : String) (cat : Catalog) :
    flagOf (create (σ := σ) ⟨0, nm⟩ true cat).2 nm = some true := by
  rcases hl : lookupName cat nm with _ | r
  · have hc : (create (σ := σ) ⟨0, nm⟩ true cat).2
        = ⟨cat.rows ++ [⟨cat.nextId, nm, true, none⟩], cat.nextId + 1⟩ := by
      unfold create
      rw [upsert_insert true hl]
    unfold flagOf
    rw [hc, lookupName_append_fresh _ _ _ _ hl]
    rfl
  · have hc : (create (σ := σ) ⟨0, nm⟩ true cat).2
        = ⟨cat.rows.map (fun q => if q.name == nm then
            ⟨r.id, nm, true || r.uniqueVersionHistory, r.defaults⟩ else q), cat.nextId⟩ := by
      unfold create
      rw [upsert_merge true hl]
    unfold flagOf
    rw [hc, lookupName_merge _ _ hl rfl]
    rfl

theorem flagOf_create_preserve_true {σ : Type} {nm : String} {cat : Catalog} {r : Row}
    (hl : lookupName cat nm = some r) (ht : r.uniqueVersionHistory = true) (f : Bool) :
    flagOf (create (σ := σ) ⟨0, nm⟩ f cat).2 nm = some true := by
  have hc : (create (σ := σ) ⟨0, nm⟩ f cat).2
      = ⟨cat.rows.map (fun q => if q.name == nm then
          ⟨r.id, nm, f || r.uniqueVersionHistory, r.defaults⟩ else q), cat.nextId⟩ := by
    unfold create
    rw [upsert_merge f hl]
  unfold flagOf
  rw [hc, lookupName_merge _ _ hl rfl]
  simp [ht]

theorem flag_true_after_true {σ : Type} {decode : String → Except String σ}
    {nm : String} {cat : Catalog} {u : UsedBaseResourceType σ} {cat' : Catalog}
    (h : FindOrCreate decode ⟨0, nm⟩ true cat = (.ok u, cat')) :
    flagOf cat' nm = some true := by
  rcases hf : Find decode ⟨0, nm⟩ cat with u₀ | _ | e
  · by_cases hu : u₀.UniqueVersionHistory = true
    · rw [foc_found_matching hf hu] at h
      injection h with h1 h2
      subst h2
      obtain ⟨r, hr, hname, _, _, huvh, _⟩ := find_found_name hf
      unfold flagOf
      rw [hr]
      rw [huvh] at hu
      simp [hu]
    · rw [foc_found_diff hf hu] at h
      have h2 := congrArg Prod.snd h
      simp only at h2
      rw [← h2]
      exact flagOf_create_true nm cat
  · rw [foc_absent true hf] at h
    have h2 := congrArg Prod.snd h
    simp only at h2
    rw [← h2]
    exact flagOf_create_true nm cat
  · rw [foc_failure true hf] at h
    injection h with h1 h2
    cases h1

theorem flag_true_preserved_by_false {σ : Type} (decode : String → Except String σ)
    {nm : String} {cat : Catalog} (ht : flagOf cat nm = some true) :
    flagOf (FindOrCreate decode ⟨0, nm⟩ false cat).2 nm = some true := by
  obtain ⟨r, hl, hrt⟩ : ∃ r, lookupName cat nm = some r ∧ r.uniqueVersionHistory = true := by
    unfold flagOf at ht
    rcases hl : lookupName cat nm with _ | r
    · rw [hl] at ht
      cases ht
    · rw [hl] at ht
      refine ⟨r, rfl, ?_⟩
      simpa using ht
  rcases hf : Find decode ⟨0, nm⟩ cat with u₀ | _ | e
  · by_cases hu : u₀.UniqueVersionHistory = false
    · obtain ⟨r', hr', _, _, _, huvh, _⟩ := find_found_name hf
      rw [hl] at hr'
      injection hr' with hr'
      subst hr'
      rw [hu, hrt] at huvh
      cases huvh
    · rw [foc_found_diff hf hu]
      exact flagOf_create_preserve_true hl hrt false
  · have := find_absent_name hf
    rw [hl] at this
    cases this
  · rw [foc_failure false hf]
    unfold flagOf
    rw [hl]
    simp [hrt]

/-- C1: for any name, once the calls with request true and request false have
both completed (the call requesting true completing successfully), in either
order, the stored flag for that name is true; and a registration with false
never reverts a stored true flag. -/
theorem C1_monotonic_or {σ : Type} (decode : String → Except String σ) (nm : String) :
    (∀ cat u cat₁, FindOrCreate decode ⟨0, nm⟩ true cat = (.ok u, cat₁) →
      flagOf (FindOrCreate decode ⟨0, nm⟩ false cat₁).2 nm = some true) ∧
    (∀ cat u cat₂, FindOrCreate decode ⟨0, nm⟩ true
        (FindOrCreate decode ⟨0, nm⟩ false cat).2 = (.ok u, cat₂) →
      flagOf cat₂ nm = some true) ∧
    (∀ cat, flagOf cat nm = some true →
      flagOf (FindOrCreate decode ⟨0, nm⟩ false cat).2 nm = some true) := by
  refine ⟨?_, ?_, fun cat ht => flag_true_preserved_by_false decode ht⟩
  · intro cat u cat₁ h
    exact flag_true_preserved_by_false decode (flag_true_after_true h)
  · intro cat u cat₂ h
    exact flag_true_after_true h

/-- C1 witness: both orders of the true and false registrations for a fresh
name end with the stored flag true, and a later false registration keeps an
existing true flag. -/
theorem C1_monotonic_or_witness :
    flagOf (FindOrCreate (σ := Unit) (fun _ => .ok ()) ⟨0, "git"⟩ false
        ⟨[⟨0, "git", true, none⟩], 1⟩).2 "git" = some true ∧
    flagOf (⟨[⟨0, "git", true, none⟩], 1⟩ : Catalog) "git" = some true := by
  obtain ⟨h1, h2, h3⟩ := C1_monotonic_or (σ := Unit) (fun _ => .ok ()) "git"
  constructor
  · exact h1 ⟨[], 0⟩ ⟨0, "git", true, none⟩ ⟨[⟨0, "git", true, none⟩], 1⟩ (by rfl)
  · exact h2 ⟨[], 0⟩ ⟨0, "git", true, none⟩ ⟨[⟨0, "git", true, none⟩], 1⟩ (by rfl)

theorem Find_name_some {σ : Type} (decode : String → Except String σ)
    {nm : String} {cat : Catalog} {r : Row} (hl : lookupName cat nm = some r) :
    Find decode ⟨0, nm⟩ cat = findFrom decode (.ok r) := by
  rw [Find_eq_cases, selects_zero nm]
  unfold lookupName at hl
  rw [hl]

theorem Find_name_none {σ : Type} (decode : String → Except String σ)
    {nm : String} {cat : Catalog} (hl : lookupName cat nm = none) :
    Find decode ⟨0, nm⟩ cat = .absent := by
  rw [Find_eq_cases, selects_zero nm]
  unfold lookupName at hl
  rw [hl]

theorem create_merge_eq {σ : Type} {nm : String} {cat : Catalog} {r : Row} (f : Bool)
    (hl : lookupName cat nm = some r) :
    create (σ := σ) ⟨0, nm⟩ f cat =
      (.ok ⟨r.id, nm, f || r.uniqueVersionHistory, none⟩,
        ⟨cat.rows.map (fun q => if q.name == nm then
            ⟨r.id, nm, f || r.uniqueVersionHistory, r.defaults⟩ else q),
          cat.nextId⟩) := by
  unfold create
  rw [upsert_merge f hl]

theorem create_insert_eq {σ : Type} {nm : String} {cat : Catalog} (f : Bool)
    (hl : lookupName cat nm = none) :
    create (σ := σ) ⟨0, nm⟩ f cat =
      (.ok ⟨cat.nextId, nm, f, none⟩,
        ⟨cat.rows ++ [⟨cat.nextId, nm, f, none⟩], cat.nextId + 1⟩) := by
  unfold create
  rw [upsert_insert f hl]

theorem map_name_map_self (l : List Row) (nm : String) (r' : Row) (h' : r'.name = nm) :
    (l.map (fun q => if q.name == nm then r' else q)).map
        (fun q => if q.name == nm then r' else q)
      = l.map (fun q => if q.name == nm then r' else q) := by
  apply map_fixed_eq_self
  intro q hq
  by_cases hqn : q.name = nm
  · have := mem_name_map h' q hq hqn
    simp [hqn, this]
  · simp [hqn]

/-- C4: calling FindOrCreate twice in sequence with the same name and the
same flag returns the same id both times, and the second call leaves the
catalog, and in particular the stored flag, exactly as the first call left
it. -/
theorem C4_idempotent {σ : Type} (decode : String → Except String σ) (nm : String)
    (f : Bool) (cat : Catalog) (u₁ : UsedBaseResourceType σ)
    (h₁ : (FindOrCreate decode ⟨0, nm⟩ f cat).1 = .ok u₁) :
    ∃ u₂, FindOrCreate decode ⟨0, nm⟩ f (FindOrCreate decode ⟨0, nm⟩ f cat).2
        = (.ok u₂, (FindOrCreate decode ⟨0, nm⟩ f cat).2) ∧ u₂.ID = u₁.ID := by
  rcases hf : Find decode ⟨0, nm⟩ cat with u₀ | _ | e
  · by_cases hu : u₀.UniqueVersionHistory = f
    · -- fast path both times
      have hfoc := foc_found_matching hf hu
      rw [hfoc] at h₁ ⊢
      injection h₁ with h₁
      subst h₁
      exact ⟨u₀, hfoc, rfl⟩
    · -- merge path, then fast or no-op merge
      obtain ⟨r, hl, hname, hid0, _, huvh0, hdec0⟩ := find_found_name hf
      have hfoc := foc_found_diff hf hu
      have hcr := create_merge_eq (σ := σ) f hl
      rw [hfoc, hcr] at h₁ ⊢
      injection h₁ with h₁
      subst h₁
      -- the merged row now stored under nm
      have hl2 : lookupName
          (⟨cat.rows.map (fun q => if q.name == nm then
              ⟨r.id, nm, f || r.uniqueVersionHistory, r.defaults⟩ else q),
            cat.nextId⟩ : Catalog) nm
          = some ⟨r.id, nm, f || r.uniqueVersionHistory, r.defaults⟩ :=
        lookupName_merge _ _ hl rfl
      -- the second read finds it, decoding as the first read did
      have hfind2 : ∃ w : UsedBaseResourceType σ,
          Find decode ⟨0, nm⟩
            (⟨cat.rows.map (fun q => if q.name == nm then
                ⟨r.id, nm, f || r.uniqueVersionHistory, r.defaults⟩ else q),
              cat.nextId⟩ : Catalog) = .found w ∧
          w.ID = r.id ∧ w.UniqueVersionHistory = (f || r.uniqueVersionHistory) := by
        rcases hdec0 with ⟨hd, _⟩ | ⟨s, v, hd, hdecs, _⟩
        · refine ⟨⟨r.id, nm, f || r.uniqueVersionHistory, none⟩, ?_, rfl, rfl⟩
          rw [Find_name_some decode hl2]
          exact findFrom_ok_none decode hd
        · refine ⟨⟨r.id, nm, f || r.uniqueVersionHistory, some v⟩, ?_, rfl, rfl⟩
          rw [Find_name_some decode hl2]
          exact findFrom_ok_decoded decode hd hdecs
      obtain ⟨w, hf2, hwid, hwuvh⟩ := hfind2
      by_cases hm : w.UniqueVersionHistory = f
      · exact ⟨w, foc_found_matching hf2 hm, hwid⟩
      · -- second merge is a no-op on the state
        have hcr2 := create_merge_eq (σ := σ) f hl2
        have hor : (f || (f || r.uniqueVersionHistory)) = (f || r.uniqueVersionHistory) := by
          cases f <;> simp
        rw [hor] at hcr2
        have hmapself := map_name_map_self cat.rows nm
          (⟨r.id, nm, f || r.uniqueVersionHistory, r.defaults⟩ : Row) rfl
        rw [hmapself] at hcr2
        rw [foc_found_diff hf2 hm, hcr2]
        exact ⟨⟨r.id, nm, f || r.uniqueVersionHistory, none⟩, rfl, rfl⟩
  · -- insert path, then fast path
    have hl := find_absent_name hf
    have hfoc := foc_absent f hf
    have hcr := create_insert_eq (σ := σ) f hl
    rw [hfoc, hcr] at h₁ ⊢
    injection h₁ with h₁
    subst h₁
    have hl2 : lookupName
        (⟨cat.rows ++ [⟨cat.nextId, nm, f, none⟩], cat.nextId + 1⟩ : Catalog) nm
        = some ⟨cat.nextId, nm, f, none⟩ :=
      lookupName_append_fresh _ _ _ _ hl
    have hf2 : Find decode ⟨0, nm⟩
        (⟨cat.rows ++ [⟨cat.nextId, nm, f, none⟩], cat.nextId + 1⟩ : Catalog)
        = .found ⟨cat.nextId, nm, f, none⟩ := by
      rw [Find_name_some decode hl2]
      exact findFrom_ok_none decode rfl
    exact ⟨⟨cat.nextId, nm, f, none⟩, foc_found_matching hf2 rfl, rfl⟩
  · -- a failed first read returns no record
    rw [foc_failure f hf] at h₁
    cases h₁

/-- C4 witness: registering git twice with the same flag yields the same id
and the second call leaves the catalog unchanged. -/
theorem C4_idempotent_witness :
    ∃ u₂, FindOrCreate (σ := Unit) (fun _ => .ok ()) ⟨0, "git"⟩ true
        (FindOrCreate (σ := Unit) (fun _ => .ok ()) ⟨0, "git"⟩ true ⟨[], 0⟩).2
        = (.ok u₂, (FindOrCreate (σ := Unit) (fun _ => .ok ()) ⟨0, "git"⟩ true ⟨[], 0⟩).2) ∧
      u₂.ID = (⟨0, "git", true, none⟩ : UsedBaseResourceType Unit).ID :=
  C4_idempotent (fun _ => .ok ()) "git" true ⟨[], 0⟩ ⟨0, "git", true, none⟩ (by rfl)

/-! ### Interleaving semantics for concurrent registration

Each of the two database statements of FindOrCreate (the shared-lock read and
the atomic insert-or-merge write) is a single atomic step against the shared
catalog; between a caller's read and its write, any other caller's statements
may interleave.  This matches the storage contract: per-statement atomicity,
no in-process locking. -/

/-- Per-caller control state: before the read, between read and write, or
finished with the value FindOrCreate would return. -/
inductive Phase (σ : Type) where
  | ready
  | willCreate
  | done (res : Except GoError (UsedBaseResourceType σ))

/-- Global state: the shared catalog plus every caller's control state. -/
structure Config (σ : Type) (N : Nat) where
  cat : Catalog
  ph : Fin N → Phase σ

/-- What a caller does after its read returns, following the branch structure
of FindOrCreate: a read error ends the call with that error, a found row with
the requested flag ends the call with the row, anything else proceeds to the
create-or-merge write. -/
def findPhase {σ : Type} (out : FindOutcome σ) (uniq : Bool) : Phase σ :=
  match out with
  | .failure e => .done (.error e)
  | .absent => .willCreate
  | .found u => if u.UniqueVersionHistory = uniq then .done (.ok u) else .willCreate

/-- One interleaving step: caller i executes its next atomic statement of
FindOrCreate(name, flags i). -/
inductive Step {σ : Type} (decode : String → Except String σ) (nm : String)
    {N : Nat} (flags : Fin N → Bool) : Config σ N → Config σ N → Prop where
  | read (c c' : Config σ N) (i : Fin N) (h : c.ph i = .ready)
      (hcat : c'.cat = c.cat)
      (hph : c'.ph = Function.update c.ph i
        (findPhase (Find decode ⟨0, nm⟩ c.cat) (flags i))) :
      Step decode nm flags c c'
  | write (c c' : Config σ N) (i : Fin N) (h : c.ph i = .willCreate)
      (hcat : c'.cat = (create (σ := σ) ⟨0, nm⟩ (flags i) c.cat).2)
      (hph : c'.ph = Function.update c.ph i
        (.done (create (σ := σ) ⟨0, nm⟩ (flags i) c.cat).1)) :
      Step decode nm flags c c'

/-- The configuration in which no caller has run yet. -/
def initConfig (σ : Type) (N : Nat) (cat₀ : Catalog) : Config σ N :=
  ⟨cat₀, fun _ => .ready⟩

/-- Trace invariant for concurrent first-time registration of a name: at most
one row ever exists for the name and it carries no defaults payload; no
caller fails; every finished caller got the current row's id and the name;
a finished caller that requested true is reflected in the stored flag; and a
stored true flag traces back to some caller's request. -/
structure RegInv {σ : Type} (nm : String) {N : Nat} (flags : Fin N → Bool)
    (c : Config σ N) : Prop where
  rowsOk : nrows c.cat nm = [] ∨ ∃ r, nrows c.cat nm = [r] ∧ r.defaults = none
  noErr : ∀ i e, ¬ c.ph i = .done (.error e)
  doneId : ∀ i u, c.ph i = .done (.ok u) →
    ∃ r, nrows c.cat nm = [r] ∧ u.ID = r.id ∧ u.Name = nm
  doneFlag : ∀ i u, c.ph i = .done (.ok u) → flags i = true →
    ∃ r, nrows c.cat nm = [r] ∧ r.uniqueVersionHistory = true
  flagSrc : ∀ r, nrows c.cat nm = [r] → r.uniqueVersionHistory = true →
    ∃ i, flags i = true

theorem nrows_name {cat : Catalog} {nm : String} {r : Row}
    (h : nrows cat nm = [r]) : r.name = nm := by
  have hr : r ∈ nrows cat nm := by
    rw [h]
    exact List.mem_singleton.mpr rfl
  unfold nrows at hr
  have := List.mem_filter.mp hr
  simpa using this.2

theorem lookupName_of_nrows_single {cat : Catalog} {nm : String} {r : Row}
    (h : nrows cat nm = [r]) : lookupName cat nm = some r := by
  rw [lookupName_eq_head_nrows, h]
  rfl

theorem lookupName_of_nrows_nil {cat : Catalog} {nm : String}
    (h : nrows cat nm = []) : lookupName cat nm = none := by
  rw [lookupName_eq_head_nrows, h]
  rfl

theorem nrows_insert {cat : Catalog} {nm : String} (i : Nat) (f : Bool)
    (d : Option String) (k : Nat) :
    nrows ⟨cat.rows ++ [⟨i, nm, f, d⟩], k⟩ nm = nrows cat nm ++ [⟨i, nm, f, d⟩] := by
  unfold nrows
  rw [List.filter_append]
  simp

theorem nrows_merge {cat : Catalog} {nm : String} {r : Row} (r' : Row) (k : Nat)
    (h : nrows cat nm = [r]) (h' : r'.name = nm) :
    nrows ⟨cat.rows.map (fun q => if q.name == nm then r' else q), k⟩ nm = [r'] := by
  unfold nrows
  rw [filter_name_map h']
  unfold nrows at h
  rw [h]
  rfl

theorem findPhase_done {σ : Type} {out : FindOutcome σ} {fi : Bool}
    {res : Except GoError (UsedBaseResourceType σ)}
    (h : findPhase out fi = .done res) :
    (∃ u, res = .ok u ∧ out = .found u ∧ u.UniqueVersionHistory = fi) ∨
    (∃ e, res = .error e ∧ out = .failure e) := by
  rcases out with u | _ | e
  · have heq : findPhase (FindOutcome.found u) fi
        = if u.UniqueVersionHistory = fi then Phase.done (.ok u) else .willCreate := rfl
    by_cases hc : u.UniqueVersionHistory = fi
    · rw [heq, if_pos hc] at h
      injection h with h
      exact Or.inl ⟨u, h.symm, rfl, hc⟩
    · rw [heq, if_neg hc] at h
      cases h
  · have heq : findPhase (FindOutcome.absent : FindOutcome σ) fi = .willCreate := rfl
    rw [heq] at h
    cases h
  · have heq : findPhase (FindOutcome.failure e : FindOutcome σ) fi
        = .done (.error e) := rfl
    rw [heq] at h
    injection h with h
    exact Or.inr ⟨e, h.symm, rfl⟩

theorem inv_step {σ : Type} {decode : String → Except String σ} {nm : String}
    {N : Nat} {flags : Fin N → Bool} {c c' : Config σ N}
    (hInv : RegInv nm flags c) (hs : Step decode nm flags c c') :
    RegInv nm flags c' := by
  rcases hs with ⟨i, hready, hcat, hph⟩ | ⟨i, hwill, hcat, hph⟩
  · -- read step: the catalog is unchanged
    have hphj : ∀ j, c'.ph j
        = if j = i then findPhase (Find decode ⟨0, nm⟩ c.cat) (flags i) else c.ph j := by
      intro j
      rw [hph, Function.update_apply]
    have hrows : nrows c'.cat nm = nrows c.cat nm := by rw [hcat]
    have hnofail : ∀ e, ¬ Find decode ⟨0, nm⟩ c.cat = .failure e := by
      intro e hfe
      rcases hInv.rowsOk with hA | ⟨r, hB, hrd⟩
      · rw [Find_name_none decode (lookupName_of_nrows_nil hA)] at hfe
        cases hfe
      · rw [Find_name_some decode (lookupName_of_nrows_single hB),
          findFrom_ok_none decode hrd] at hfe
        cases hfe
    refine ⟨?_, ?_, ?_, ?_, ?_⟩
    · rw [hcat]
      exact hInv.rowsOk
    · intro j e hj
      rw [hphj j] at hj
      by_cases hji : j = i
      · rw [if_pos hji] at hj
        rcases findPhase_done hj with ⟨u, hu, _, _⟩ | ⟨e', _, hfe⟩
        · cases hu
        · exact hnofail e' hfe
      · rw [if_neg hji] at hj
        exact hInv.noErr j e hj
    · intro j u hj
      rw [hphj j] at hj
      by_cases hji : j = i
      · rw [if_pos hji] at hj
        rcases findPhase_done hj with ⟨u', hu', hfe, hflag⟩ | ⟨e', he', hfe⟩
        · injection hu' with hu'
          subst hu'
          obtain ⟨r0, hr0, hrname0, hid, hNm, huvh, _⟩ := find_found_name hfe
          rcases hInv.rowsOk with hA | ⟨r, hB, hrd⟩
          · rw [lookupName_of_nrows_nil hA] at hr0
            cases hr0
          · rw [lookupName_of_nrows_single hB] at hr0
            injection hr0 with hr0
            refine ⟨r, by rw [hrows]; exact hB, ?_, ?_⟩
            · rw [hid, ← hr0]
            · rw [hNm, ← hr0]
              exact nrows_name hB
        · exact absurd hfe (hnofail e')
      · rw [if_neg hji] at hj
        obtain ⟨r, hr, hid, hname⟩ := hInv.doneId j u hj
        exact ⟨r, by rw [hrows]; exact hr, hid, hname⟩
    · intro j u hj hfj
      rw [hphj j] at hj
      by_cases hji : j = i
      · rw [if_pos hji] at hj
        rcases findPhase_done hj with ⟨u', hu', hfe, hflag⟩ | ⟨e', _, hfe⟩
        · injection hu' with hu'
          subst hu'
          obtain ⟨r0, hr0, hrname0, hid, hNm, huvh, _⟩ := find_found_name hfe
          rcases hInv.rowsOk with hA | ⟨r, hB, hrd⟩
          · rw [lookupName_of_nrows_nil hA] at hr0
            cases hr0
          · rw [lookupName_of_nrows_single hB] at hr0
            injection hr0 with hr0
            refine ⟨r, by rw [hrows]; exact hB, ?_⟩
            rw [hr0, ← huvh, hflag, ← hji]
            exact hfj
        · exact absurd hfe (hnofail e')
      · rw [if_neg hji] at hj
        obtain ⟨r, hr, ht⟩ := hInv.doneFlag j u hj hfj
        exact ⟨r, by rw [hrows]; exact hr, ht⟩
    · intro r hr ht
      rw [hrows] at hr
      exact hInv.flagSrc r hr ht
  · -- write step: the atomic insert-or-merge
    have hphj : ∀ j, c'.ph j = if j = i then
        Phase.done (create (σ := σ) ⟨0, nm⟩ (flags i) c.cat).1 else c.ph j := by
      intro j
      rw [hph, Function.update_apply]
    rcases hInv.rowsOk with hA | ⟨r, hB, hrd⟩
    · -- insert branch
      have hl := lookupName_of_nrows_nil hA
      have hcr := create_insert_eq (σ := σ) (flags i) hl
      have hres : (create (σ := σ) ⟨0, nm⟩ (flags i) c.cat).1
          = .ok ⟨c.cat.nextId, nm, flags i, none⟩ := by rw [hcr]
      have hcat2 : c'.cat
          = ⟨c.cat.rows ++ [⟨c.cat.nextId, nm, flags i, none⟩], c.cat.nextId + 1⟩ := by
        rw [hcat, hcr]
      have hrows : nrows c'.cat nm = [⟨c.cat.nextId, nm, flags i, none⟩] := by
        rw [hcat2, nrows_insert, hA]
        rfl
      refine ⟨Or.inr ⟨_, hrows, rfl⟩, ?_, ?_, ?_, ?_⟩
      · intro j e hj
        rw [hphj j] at hj
        by_cases hji : j = i
        · rw [if_pos hji, hres] at hj
          injection hj with hj
          cases hj
        · rw [if_neg hji] at hj
          exact hInv.noErr j e hj
      · intro j u hj
        rw [hphj j] at hj
        by_cases hji : j = i
        · rw [if_pos hji, hres] at hj
          injection hj with hj
          injection hj with hj
          subst hj
          exact ⟨_, hrows, rfl, rfl⟩
        · rw [if_neg hji] at hj
          obtain ⟨r0, hr0, _, _⟩ := hInv.doneId j u hj
          rw [hA] at hr0
          cases hr0
      · intro j u hj hfj
        rw [hphj j] at hj
        by_cases hji : j = i
        · rw [if_pos hji, hres] at hj
          injection hj with hj
          injection hj with hj
          subst hj
          refine ⟨_, hrows, ?_⟩
          rw [← hji]
          exact hfj
        · rw [if_neg hji] at hj
          obtain ⟨r0, hr0, _⟩ := hInv.doneFlag j u hj hfj
          rw [hA] at hr0
          cases hr0
      · intro r0 hr0 ht0
        rw [hrows] at hr0
        injection hr0 with h1 _
        rw [← h1] at ht0
        exact ⟨i, ht0⟩
    · -- merge branch
      have hl := lookupName_of_nrows_single hB
      have hcr := create_merge_eq (σ := σ) (flags i) hl
      have hres : (create (σ := σ) ⟨0, nm⟩ (flags i) c.cat).1
          = .ok ⟨r.id, nm, flags i || r.uniqueVersionHistory, none⟩ := by rw [hcr]
      have hcat2 : c'.cat = ⟨c.cat.rows.map (fun q => if q.name == nm then
          ⟨r.id, nm, flags i || r.uniqueVersionHistory, r.defaults⟩ else q),
            c.cat.nextId⟩ := by
        rw [hcat, hcr]
      have hrows : nrows c'.cat nm
          = [⟨r.id, nm, flags i || r.uniqueVersionHistory, r.defaults⟩] := by
        rw [hcat2]
        exact nrows_merge _ _ hB rfl
      refine ⟨Or.inr ⟨_, hrows, hrd⟩, ?_, ?_, ?_, ?_⟩
      · intro j e hj
        rw [hphj j] at hj
        by_cases hji : j = i
        · rw [if_pos hji, hres] at hj
          injection hj with hj
          cases hj
        · rw [if_neg hji] at hj
          exact hInv.noErr j e hj
      · intro j u hj
        rw [hphj j] at hj
        by_cases hji : j = i
        · rw [if_pos hji, hres] at hj
          injection hj with hj
          injection hj with hj
          subst hj
          exact ⟨_, hrows, rfl, rfl⟩
        · rw [if_neg hji] at hj
          obtain ⟨r0, hr0, hid, hname⟩ := hInv.doneId j u hj
          rw [hB] at hr0
          injection hr0 with h1 _
          refine ⟨_, hrows, ?_, hname⟩
          rw [hid, ← h1]
      · intro j u hj hfj
        rw [hphj j] at hj
        by_cases hji : j = i
        · rw [if_pos hji, hres] at hj
          injection hj with hj
          injection hj with hj
          subst hj
          refine ⟨_, hrows, ?_⟩
          rw [← hji]
          simp [hfj]
        · rw [if_neg hji] at hj
          obtain ⟨r0, hr0, ht0⟩ := hInv.doneFlag j u hj hfj
          rw [hB] at hr0
          injection hr0 with h1 _
          refine ⟨_, hrows, ?_⟩
          rw [← h1] at ht0
          simp [ht0]
      · intro r0 hr0 ht0
        rw [hrows] at hr0
        injection hr0 with h1 _
        rw [← h1] at ht0
        rcases hor : flags i with _ | _
        · rw [hor] at ht0
          simp only [Bool.false_or] at ht0
          exact hInv.flagSrc r hB ht0
        · exact ⟨i, hor⟩

theorem inv_init {σ : Type} (nm : String) {N : Nat} (flags : Fin N → Bool)
    (cat₀ : Catalog) (h₀ : nrows cat₀ nm = []) :
    RegInv nm flags (initConfig σ N cat₀) := by
  refine ⟨Or.inl h₀, ?_, ?_, ?_, ?_⟩
  · intro i e h
    simp [initConfig] at h
  · intro i u h
    simp [initConfig] at h
  · intro i u h
    simp [initConfig] at h
  · intro r hr ht
    have h2 : nrows cat₀ nm = [r] := hr
    rw [h₀] at h2
    cases h2

theorem inv_reachable {σ : Type} {decode : String → Except String σ} {nm : String}
    {N : Nat} {flags : Fin N → Bool} {c₀ c : Config σ N}
    (h : Relation.ReflTransGen (Step decode nm flags) c₀ c)
    (hInv : RegInv nm flags c₀) : RegInv nm flags c := by
  induction h with
  | refl => exact hInv
  | tail _ hs ih => exact inv_step ih hs

/-- C9: starting from a catalog with no row for the name, any interleaving of
N concurrent first-time FindOrCreate calls that runs every caller to
completion ends with exactly one row for the name, every caller holding that
row's id (and the name), and the stored flag equal to the logical OR of all
submitted flags. -/
theorem C9_uniqueness {σ : Type} (decode : String → Except String σ) (nm : String)
    {N : Nat} (flags : Fin N → Bool) (hN : 0 < N) (cat₀ : Catalog)
    (h₀ : nrows cat₀ nm = []) (c : Config σ N)
    (hreach : Relation.ReflTransGen (Step decode nm flags) (initConfig σ N cat₀) c)
    (hdone : ∀ i, ∃ res, c.ph i = .done res) :
    ∃ r, nrows c.cat nm = [r] ∧
      (∀ i, ∃ u, c.ph i = .done (.ok u) ∧ u.ID = r.id ∧ u.Name = nm) ∧
      (r.uniqueVersionHistory = true ↔ ∃ i, flags i = true) := by
  have hInv := inv_reachable hreach (inv_init nm flags cat₀ h₀)
  have hok : ∀ i, ∃ u, c.ph i = .done (.ok u) := by
    intro i
    obtain ⟨res, hres⟩ := hdone i
    rcases res with e | u
    · exact absurd hres (hInv.noErr i e)
    · exact ⟨u, hres⟩
  obtain ⟨u0, hu0⟩ := hok ⟨0, hN⟩
  obtain ⟨r, hr, _, _⟩ := hInv.doneId _ _ hu0
  refine ⟨r, hr, ?_, ?_, ?_⟩
  · intro i
    obtain ⟨u, hu⟩ := hok i
    obtain ⟨r2, hr2, hid, hname⟩ := hInv.doneId _ _ hu
    rw [hr] at hr2
    injection hr2 with h1 _
    refine ⟨u, hu, ?_, hname⟩
    rw [hid, ← h1]
  · intro huvh
    exact hInv.flagSrc r hr huvh
  · rintro ⟨i, hi⟩
    obtain ⟨u, hu⟩ := hok i
    obtain ⟨r2, hr2, huvh2⟩ := hInv.doneFlag _ _ hu hi
    rw [hr] at hr2
    injection hr2 with h1 _
    rw [h1]
    exact huvh2

/-- C9 witness: two callers race on the fresh name git, the first requesting
true and the second false, through the explicit interleaving read 0, write 0,
read 1, write 1; both finish with the single row of id 0 and the stored flag
is the OR of the requests. -/
theorem C9_uniqueness_witness :
    ∃ r, nrows (⟨[⟨0, "git", true, none⟩], 1⟩ : Catalog) "git" = [r] ∧
      (∀ i : Fin 2, ∃ u : UsedBaseResourceType Unit,
        (fun _ : Fin 2 => Phase.done (σ := Unit) (.ok ⟨0, "git", true, none⟩)) i
          = .done (.ok u) ∧ u.ID = r.id ∧ u.Name = "git") ∧
      (r.uniqueVersionHistory = true ↔ ∃ i : Fin 2, decide (i.val = 0) = true) := by
  have s1 : Step (σ := Unit) (fun _ => .ok ()) "git" (fun j : Fin 2 => decide (j.val = 0))
      (initConfig Unit 2 ⟨[], 0⟩)
      ⟨⟨[], 0⟩, fun j => if j = (0 : Fin 2) then Phase.willCreate else Phase.ready⟩ := by
    refine Step.read _ _ 0 rfl rfl ?_
    funext j
    fin_cases j <;> rfl
  have s2 : Step (σ := Unit) (fun _ => .ok ()) "git" (fun j : Fin 2 => decide (j.val = 0))
      ⟨⟨[], 0⟩, fun j => if j = (0 : Fin 2) then Phase.willCreate else Phase.ready⟩
      ⟨⟨[⟨0, "git", true, none⟩], 1⟩, fun j => if j = (0 : Fin 2) then
        Phase.done (.ok ⟨0, "git", true, none⟩) else Phase.ready⟩ := by
    refine Step.write _ _ 0 rfl rfl ?_
    funext j
    fin_cases j <;> rfl
  have s3 : Step (σ := Unit) (fun _ => .ok ()) "git" (fun j : Fin 2 => decide (j.val = 0))
      ⟨⟨[⟨0, "git", true, none⟩], 1⟩, fun j => if j = (0 : Fin 2) then
        Phase.done (.ok ⟨0, "git", true, none⟩) else Phase.ready⟩
      ⟨⟨[⟨0, "git", true, none⟩], 1⟩, fun j => if j = (0 : Fin 2) then
        Phase.done (.ok ⟨0, "git", true, none⟩) else Phase.willCreate⟩ := by
    refine Step.read _ _ 1 rfl rfl ?_
    funext j
    fin_cases j <;> rfl
  have s4 : Step (σ := Unit) (fun _ => .ok ()) "git" (fun j : Fin 2 => decide (j.val = 0))
      ⟨⟨[⟨0, "git", true, none⟩], 1⟩, fun j => if j = (0 : Fin 2) then
        Phase.done (.ok ⟨0, "git", true, none⟩) else Phase.willCreate⟩
      ⟨⟨[⟨0, "git", true, none⟩], 1⟩,
        fun _ => Phase.done (.ok ⟨0, "git", true, none⟩)⟩ := by
    refine Step.write _ _ 1 rfl rfl ?_
    funext j
    fin_cases j <;> rfl
  have hreach : Relation.ReflTransGen
      (Step (σ := Unit) (fun _ => .ok ()) "git" (fun j : Fin 2 => decide (j.val = 0)))
      (initConfig Unit 2 ⟨[], 0⟩)
      ⟨⟨[⟨0, "git", true, none⟩], 1⟩,
        fun _ => Phase.done (.ok ⟨0, "git", true, none⟩)⟩ :=
    Relation.ReflTransGen.tail (Relation.ReflTransGen.tail
      (Relation.ReflTransGen.tail (Relation.ReflTransGen.single s1) s2) s3) s4
  exact C9_uniqueness (fun _ => .ok ()) "git" (fun j : Fin 2 => decide (j.val = 0))
    (by decide) ⟨[], 0⟩ rfl
    ⟨⟨[⟨0, "git", true, none⟩], 1⟩, fun _ => Phase.done (.ok ⟨0, "git", true, none⟩)⟩
    hreach (fun i => ⟨.ok ⟨0, "git", true, none⟩, rfl⟩)
